import Mathlib

/-!
# Verification of the datadelve override-resolution core

A shallow embedding of `src/datadelve/main.py`: the JSON tree model, the
`DataDelver` get/set/delete operations (built on JSON-Pointer resolution,
which the spec treats as a well-defined external addressing scheme), the
`ChainedDelver` layered resolver with its three find strategies, the
`JsonDelver` flyweight registry, and the `JsonPath` text round-trip.

Python values are embedded as an inductive `Json` type; Python `dict`
(insertion-ordered) becomes an association list, Python `None` is
`Json.null`, and the `DataDelver._sentinel` "document deleted" state is
the `none` case of an `Option Json` field.  Paths are taken as their
parsed JSON-Pointer segment lists (the unescaped `pointer.parts`), since
every `DataDelver` operation factors through those parts.
-/

set_option autoImplicit false

namespace Datadelve

/-- The embedding of Python JSON values (`JsonValue` in main.py).
Numbers are embedded as integers (no claim involves float arithmetic);
mappings are insertion-ordered association lists, mirroring the
`collections.OrderedDict` / dict semantics the code relies on. -/
inductive Json where
  | null : Json
  | bool (b : Bool) : Json
  | num (n : Int) : Json
  | str (s : String) : Json
  | arr (xs : List Json) : Json
  | obj (kvs : List (String × Json)) : Json
  deriving Repr

namespace Json

/-- First-match lookup in an association list (Python `dict[key]`). -/
def lookup (k : String) : List (String × Json) → Option Json
  | [] => none
  | (k', v) :: t => if k' = k then some v else lookup k t

/-- Python `dict[key] = value`: replace the first binding of `k` in place
(dicts keep the key's original position on update) or append a new one. -/
def insertKV (kvs : List (String × Json)) (k : String) (v : Json) :
    List (String × Json) :=
  match kvs with
  | [] => [(k, v)]
  | (k', v') :: t => if k' = k then (k, v) :: t else (k', v') :: insertKV t k v

/-- Python `dict.update(a, b)`: fold the bindings of `b` into `a`. -/
def updateKVs (a b : List (String × Json)) : List (String × Json) :=
  b.foldl (fun acc kv => insertKV acc kv.1 kv.2) a

/-- Python `del dict[key]`: remove the first binding of `k`. -/
def eraseKV (kvs : List (String × Json)) (k : String) : List (String × Json) :=
  match kvs with
  | [] => []
  | (k', v') :: t => if k' = k then t else (k', v') :: eraseKV t k

end Json

/-- The numeric value of a decimal digit character. -/
def digit? (c : Char) : Option Nat :=
  if c = '0' then some 0
  else if c = '1' then some 1
  else if c = '2' then some 2
  else if c = '3' then some 3
  else if c = '4' then some 4
  else if c = '5' then some 5
  else if c = '6' then some 6
  else if c = '7' then some 7
  else if c = '8' then some 8
  else if c = '9' then some 9
  else none

/-- Accumulate the value of a run of decimal digits. -/
def digitsVal (acc : Nat) : List Char → Option Nat
  | [] => some acc
  | c :: t =>
    match digit? c with
    | some d => digitsVal (acc * 10 + d) t
    | none => none

/-- A sequence-index segment per the external addressing scheme (spec
§6): a nonempty string of decimal digits, as Python's `int()` accepts
inside `jsonpointer.get_part`; anything else fails sequence indexing. -/
def parseIndex (s : String) : Option Nat :=
  match s.data with
  | [] => none
  | c :: t => (digit? c).bind fun d => digitsVal d t

/-- One step of JSON-Pointer resolution (`jsonpointer.JsonPointer.walk`):
mapping lookup by key; sequence lookup by a decimal-index segment; a
Python `str` is itself a `Sequence`, so indexing it yields a one-character
string; anything else fails (a `JsonPointerException` in Python, `none`
here).  Sequence index segments are nonempty digit strings
(`parseIndex`), per the external addressing scheme of spec §6. -/
def walk (d : Json) (part : String) : Option Json :=
  match d with
  | .obj kvs => Json.lookup part kvs
  | .arr xs => (parseIndex part).bind fun i => xs.get? i
  | .str s => (parseIndex part).bind fun i =>
      (s.data.get? i).map fun c => Json.str (String.singleton c)
  | _ => none

/-- Full JSON-Pointer resolution (`jsonpointer.JsonPointer.resolve`
without a default): walk every segment in order. -/
def resolve (d : Json) : List String → Option Json
  | [] => some d
  | p :: rest => (walk d p).bind fun sub => resolve sub rest

/-- Rebuild a container with the child reached by `walk · part` replaced.
This is the functional image of Python's in-place mutation of the child
slot that `walk` aliases.  Unmatched cases return the value unchanged
(they are unreachable from successful operations). -/
def replaceChild (d : Json) (part : String) (sub : Json) : Json :=
  match d with
  | .obj kvs => .obj (Json.insertKV kvs part sub)
  | .arr xs =>
    match parseIndex part with
    | some i => .arr (xs.set i sub)
    | none => .arr xs
  | other => other

/-- Replace the subtree reached by resolving `parts` (used to express the
in-place mutations that merge performs through the alias `resolve`
returns).  Where resolution fails the tree is returned unchanged. -/
def replaceAt (d : Json) (parts : List String) (v : Json) : Json :=
  match parts with
  | [] => v
  | p :: rest =>
    match walk d p with
    | some sub => replaceChild d p (replaceAt sub rest v)
    | none => d

/-- Errors that can escape the embedded operations.  `pathError` is the
package's own `PathError`; `readonly` its `ReadonlyError`; `jpe` a raw
`jsonpointer.JsonPointerException`; `typeError` / `indexError` are the
built-in Python exceptions that the source code does not catch. -/
inductive Err where
  | pathError : Err
  | readonly : Err
  | jpe : Err
  | typeError : Err
  | indexError : Err
  | mergeError : Err
  | iterationError : Err
  deriving DecidableEq, Repr

/-- `jsonpointer.JsonPointer.set(doc, value)`: `to_last` walks all but the
last segment (raising `JsonPointerException` = `.jpe` on failure, which
`DataDelver.set` catches) and validates the last segment's form, then the
single assignment `parent[part] = value` runs: dict assignment always
succeeds; list assignment raises `IndexError` out of range; assigning
into an (immutable) string raises `TypeError`.  An empty segment list
cannot reach here (`DataDelver.set` short-circuits the root path). -/
def setPtr (d : Json) (parts : List String) (v : Json) : Except Err Json :=
  match parts with
  | [] => .error .jpe
  | [last] =>
    match d with
    | .obj kvs => .ok (.obj (Json.insertKV kvs last v))
    | .arr xs =>
      match parseIndex last with
      | some i => if i < xs.length then .ok (.arr (xs.set i v)) else .error .indexError
      | none => .error .jpe
    | .str _ =>
      match parseIndex last with
      | some _ => .error .typeError
      | none => .error .jpe
    | _ => .error .jpe
  | p :: rest =>
    match walk d p with
    | some sub => (setPtr sub rest v).map (replaceChild d p)
    | none => .error .jpe

/-- The `parents=True` fallback loop of `DataDelver.set` (main.py
188-196): walk the leading segments, creating an empty mapping wherever a
step fails (`doc[part] = {}` — a `TypeError` if `doc` is not a mapping,
since `part` is an uncoerced string), then assign the final segment the
same way. -/
def setParents (d : Json) (parts : List String) (v : Json) : Except Err Json :=
  match parts with
  | [] => .error .typeError
  | [last] =>
    match d with
    | .obj kvs => .ok (.obj (Json.insertKV kvs last v))
    | _ => .error .typeError
  | p :: rest =>
    match walk d p with
    | some sub => (setParents sub rest v).map (replaceChild d p)
    | none =>
      match d with
      | .obj kvs =>
        (setParents (.obj []) rest v).map fun sub' => .obj (Json.insertKV kvs p sub')
      | _ => .error .typeError

/-- `jsonpointer` delete support for `DataDelver.delete`: `to_last`
resolves to the parent container (a failure there is a
`JsonPointerException`, which the source catches into `PathError`), then
`del subdoc[key]` runs raw: a missing dict key raises `KeyError` (also
caught into `PathError`), but an out-of-range list index raises
`IndexError` and deleting from a string raises `TypeError`, neither of
which the `except (JsonPointerException, KeyError)` clause catches. -/
def delPtr (d : Json) (parts : List String) : Except Err Json :=
  match parts with
  | [] => .error .jpe
  | [last] =>
    match d with
    | .obj kvs =>
      match Json.lookup last kvs with
      | some _ => .ok (.obj (Json.eraseKV kvs last))
      | none => .error .pathError
    | .arr xs =>
      match parseIndex last with
      | some i =>
        if i < xs.length then .ok (.arr (xs.eraseIdx i)) else .error .indexError
      | none => .error .pathError
    | .str _ =>
      match parseIndex last with
      | some _ => .error .typeError
      | none => .error .pathError
    | _ => .error .pathError
  | p :: rest =>
    match walk d p with
    | some sub => (delPtr sub rest).map (replaceChild d p)
    | none => .error .pathError

/-- The state of a `DataDelver`: the owned tree (`none` is the
`_sentinel` "document deleted" state) and the readonly flag. -/
structure DD where
  data : Option Json
  readonly : Bool
  deriving Repr

/-- `DataDelver.get(path, default)` (main.py 150-154): the sentinel with
the root path yields `default`; otherwise `pointer.resolve(data, default)`
— and every resolution step fails on the sentinel object too, so a
sentinel-state get yields `default` for non-root paths as well. -/
def ddget (dd : DD) (parts : List String) (default : Json) : Json :=
  match dd.data with
  | none => default
  | some d => (resolve d parts).getD default

/-- `DataDelver.set(path, value, parents)` (main.py 174-196): readonly
check first; the root path replaces the whole owned tree; otherwise
`pointer.set`, falling back to the parent-creating loop (`parents=True`)
or `PathError` when it raises `JsonPointerException`.  Other exceptions
(`TypeError`, `IndexError`) escape unhandled. -/
def ddset (dd : DD) (parts : List String) (v : Json) (parents : Bool) :
    Except Err DD :=
  if dd.readonly then .error .readonly
  else if parts.isEmpty then .ok ⟨some v, dd.readonly⟩
  else
    match dd.data with
    | none =>
      -- the sentinel object supports no indexing: `pointer.set` raises
      -- `JsonPointerException` immediately (no `__getitem__`); the
      -- parents fallback then fails assigning into it (`TypeError`).
      if parents then .error .typeError else .error .pathError
    | some d =>
      match setPtr d parts v with
      | .ok d' => .ok ⟨some d', dd.readonly⟩
      | .error .jpe =>
        if parents then
          (setParents d parts v).map fun d' => ⟨some d', dd.readonly⟩
        else .error .pathError
      | .error e => .error e

/-- `DataDelver.delete(path)` (main.py 156-172): readonly check first;
the root path stores the `_sentinel`; otherwise `to_last` + `del`, with
`JsonPointerException` and `KeyError` converted to `PathError`. -/
def dddelete (dd : DD) (parts : List String) : Except Err DD :=
  if dd.readonly then .error .readonly
  else if parts.isEmpty then .ok ⟨none, dd.readonly⟩
  else
    match dd.data with
    | none => .error .pathError
    | some d =>
      match delPtr d parts with
      | .ok d' => .ok ⟨some d', dd.readonly⟩
      | .error .jpe => .error .pathError
      | .error e => .error e

/-- Python's `x is None` test, as used by the chain strategies on the
result of `delver.get(path)` (whose default is `None`). -/
def Json.isNull : Json → Bool
  | .null => true
  | _ => false

/-- `delver.get(path)` as the chain strategies call it: default `None`.
A stored JSON null and an absent path both come back as Python `None`,
so the strategies cannot tell the two apart. -/
def ddgetNull (dd : DD) (parts : List String) : Json :=
  ddget dd parts .null

/-- The scanning loop of `ChainedDelver._first` (main.py 348-353) over an
already-reversed layer list: return the first `found` that
`is not None`, else the default. -/
def firstAux (parts : List String) (default : Json) : List DD → Json
  | [] => default
  | l :: rest =>
    let found := ddgetNull l parts
    if found.isNull then firstAux parts default rest else found

/-- `ChainedDelver.get(path, default, strategy=FIRST)`: scan
`decreasing_specificity()` — the reversed `searchpath` (layers are stored
least- to most-specific) — and return the first non-`None` value. -/
def chainFirst (layers : List DD) (parts : List String) (default : Json) : Json :=
  firstAux parts default layers.reverse

/-- Which `merger` `_merge` chose at seeding time: `dict.update` or
`list.extend` (main.py 363-366). -/
inductive MKind where
  | dict : MKind
  | list : MKind
  deriving DecidableEq, Repr

/-- The running accumulator of `_merge`.  In Python `collected` is the
very object stored in the seeding layer's tree; `ownerIdx` records which
layer that is, so that the in-place mutations `merger` performs can be
reflected back into that layer's state. -/
structure MergeAcc where
  ownerIdx : Nat
  value : Json
  kind : MKind
  deriving Repr

/-- `merger(collected, found)`: `dict.update(collected, found)` requires
a mapping argument (anything else raises `TypeError`, leaving aside
iterable-of-pairs inputs that no proved claim exercises);
`list.extend(collected, found)` appends the elements of any iterable —
a list's items, a mapping's keys, a string's characters — and raises
`TypeError` on non-iterables. -/
def combine (k : MKind) (acc found : Json) : Option Json :=
  match k, acc, found with
  | .dict, .obj a, .obj b => some (.obj (Json.updateKVs a b))
  | .dict, _, _ => none
  | .list, .arr a, .arr b => some (.arr (a ++ b))
  | .list, .arr a, .obj b => some (.arr (a ++ b.map fun kv => Json.str kv.1))
  | .list, .arr a, .str s =>
    some (.arr (a ++ s.data.map fun c => Json.str (String.singleton c)))
  | .list, _, _ => none

/-- The loop of `ChainedDelver._merge` (main.py 355-371), scanning
`increasing_specificity()` with the absolute layer index threaded
through.  It returns the final accumulator together with the raised
error, if any: a scalar seed raises `MergeError` before any mutation; a
failing `merger` call raises `TypeError` after the mutations already
performed (captured by the accumulator state at that point). -/
def mergeLoop (parts : List String) :
    List DD → Nat → Option MergeAcc → Option MergeAcc × Option Err
  | [], _, acc => (acc, none)
  | l :: rest, idx, acc =>
    let found := ddgetNull l parts
    if found.isNull then mergeLoop parts rest (idx + 1) acc
    else
      match acc with
      | none =>
        match found with
        | .obj kvs => mergeLoop parts rest (idx + 1) (some ⟨idx, .obj kvs, .dict⟩)
        | .arr xs => mergeLoop parts rest (idx + 1) (some ⟨idx, .arr xs, .list⟩)
        | _ => (none, some .mergeError)
      | some a =>
        match combine a.kind a.value found with
        | some m => mergeLoop parts rest (idx + 1) (some ⟨a.ownerIdx, m, a.kind⟩)
        | none => (some a, some .typeError)

/-- The value `ChainedDelver.get(path, default, strategy=MERGE)` returns
(or the error it raises). -/
def chainMergeGet (layers : List DD) (parts : List String) (default : Json) :
    Except Err Json :=
  match mergeLoop parts layers 0 none with
  | (_, some e) => .error e
  | (some a, none) => .ok a.value
  | (none, none) => .ok default

/-- Replace the element at an index, leaving the list unchanged when the
index is out of range. -/
def modifyIdx {α : Type} (f : α → α) : Nat → List α → List α
  | _, [] => []
  | 0, x :: t => f x :: t
  | n + 1, x :: t => x :: modifyIdx f n t

/-- The layer states after a merge-strategy get: `collected` aliases the
subtree of the seeding (owner) layer at the path, so every `merger` call
mutates that layer's stored tree in place; all other layers are only
read. -/
def chainMergeLayers (layers : List DD) (parts : List String) : List DD :=
  match (mergeLoop parts layers 0 none).1 with
  | none => layers
  | some a =>
    modifyIdx
      (fun l => { l with data := l.data.map (replaceAt · parts a.value) })
      a.ownerIdx layers

/-- The non-`None` values the chain strategies see at a path, in
least- to most-specific order. -/
def foundList (layers : List DD) (parts : List String) : List Json :=
  layers.filterMap fun l =>
    let f := ddgetNull l parts
    if f.isNull then none else some f

/-- The per-layer loop of `ChainedDelver.delete` (main.py 446-450):
attempt each layer least- to most-specific, swallowing `PathError`; any
other exception propagates immediately, leaving that layer and all later
layers untouched (earlier layers keep their deletions). -/
def chainDeleteGo (parts : List String) : List DD → List DD × Option Err
  | [] => ([], none)
  | l :: rest =>
    match dddelete l parts with
    | .ok l' =>
      let r := chainDeleteGo parts rest
      (l' :: r.1, r.2)
    | .error .pathError =>
      let r := chainDeleteGo parts rest
      (l :: r.1, r.2)
    | .error e => (l :: rest, some e)

/-- `ChainedDelver.delete(path)` (main.py 430-450): first refuse with
`ReadonlyError` if any layer's `readonly` attribute is set — before any
mutation — then run the per-layer loop. -/
def chainDelete (layers : List DD) (parts : List String) : List DD × Option Err :=
  if layers.any (·.readonly) then (layers, some .readonly)
  else chainDeleteGo parts layers

/-- `Delver.values` / `Delver.items` (main.py 75-102): fetch the
structure (default `None`), then test `isinstance(structure, Sequence)`
— true for Python lists *and strings* — before `Mapping`, and raise
`IterationError` otherwise.  Each yielded child is `cd(path + "/" + k)`;
we record the keys `k` in yield order (sequences: `"0"`, `"1"`, …;
mappings: their keys in insertion order). -/
def valuesKeys (dd : DD) (parts : List String) : Except Err (List String) :=
  match ddgetNull dd parts with
  | .arr xs => .ok ((List.range xs.length).map toString)
  | .str s => .ok ((List.range s.length).map toString)
  | .obj kvs => .ok (kvs.map (·.1))
  | _ => .error .iterationError

/-- Python `text.split('/')` on a string modelled as a character list:
always returns at least one (possibly empty) piece. -/
def splitSlash : List Char → List (List Char)
  | [] => [[]]
  | c :: t =>
    if c = '/' then [] :: splitSlash t
    else
      match splitSlash t with
      | h :: r => (c :: h) :: r
      | [] => [[c]]

/-- Python `'/'.join(pieces)`. -/
def joinSlash : List (List Char) → List Char
  | [] => []
  | [x] => x
  | x :: y :: r => x ++ '/' :: joinSlash (y :: r)

/-- `JsonPath.__init__` with a single string argument (main.py 461-462):
`components = s.split('/')[1:]`. -/
def jsonPathComponents (s : List Char) : List (List Char) :=
  (splitSlash s).drop 1

/-- `JsonPath.__str__` (main.py 466-467): `'/' + '/'.join(components)`. -/
def jsonPathToString (cs : List (List Char)) : List Char :=
  '/' :: joinSlash cs

/-- A registered `JsonDelver` instance: its canonical cache key, its
loaded tree (the mutable `DataDelver` state) and its readonly flag. -/
structure JD where
  key : String
  data : Option Json
  readonly : Bool
  deriving Repr

/-- Construction errors of `JsonDelver`: `UnreadableFileError` /
`InvalidFileError` on a failed load, `InitializationConflict` on a
readonly-flag disagreement. -/
inductive CErr where
  | loadFailure : CErr
  | initConflict : CErr
  deriving DecidableEq, Repr

/-- Find a registered instance by cache key, with its position (the
`__EXTANT` dictionary lookup in `JsonDelver.__new__`; instances are
identified by their index in the registry list). -/
def findInst (key : String) : List JD → Option (Nat × JD)
  | [] => none
  | j :: rest =>
    if j.key = key then some (0, j)
    else (findInst key rest).map fun p => (p.1 + 1, p.2)

/-- `JsonDelver(path, readonly=...)` (main.py 238-275) as a transition on
the registry.  `canon` is `cache_key`: symlink-resolved absolute path, or
`none` when the reference cannot be resolved (`UnreadableFileError`).
`content` is the external load-and-parse service: the parsed tree for a
canonical key, or `none` on an unreadable/invalid file.  An existing
instance for the key is returned as-is after the `readonly ^
self.readonly` conflict check — the file is not consulted at all;
otherwise the file is read and the new instance registered. -/
def jdConstruct (canon : String → Option String) (content : String → Option Json)
    (store : List JD) (path : String) (readonly : Bool) :
    Except CErr (Nat × List JD) :=
  match canon path with
  | none => .error .loadFailure
  | some key =>
    match findInst key store with
    | some (i, inst) =>
      if readonly != inst.readonly then .error .initConflict
      else .ok (i, store)
    | none =>
      match content key with
      | none => .error .loadFailure
      | some data => .ok (store.length, store ++ [⟨key, some data, readonly⟩])


/-- Resolution against a `DataDelver` state: the tree is absent when the
view is in the sentinel state or when any pointer step fails. -/
def resolveDD (dd : DD) (parts : List String) : Option Json :=
  dd.data.bind (resolve · parts)

/-! ## Lemmas for the set/get round trip (C1) -/

theorem lookup_insertKV (kvs : List (String × Json)) (k : String) (v : Json) :
    Json.lookup k (Json.insertKV kvs k v) = some v := by
  induction kvs with
  | nil => simp [Json.insertKV, Json.lookup]
  | cons hd t ih =>
    obtain ⟨k', v'⟩ := hd
    by_cases hk : k' = k
    · simp [Json.insertKV, hk, Json.lookup]
    · simp [Json.insertKV, hk, Json.lookup, ih]

theorem except_map_ok {α β ε : Type} {f : α → β} {x : Except ε α} {b : β}
    (h : x.map f = .ok b) : ∃ a, x = .ok a ∧ b = f a := by
  cases x with
  | error e => simp [Except.map] at h
  | ok a =>
    refine ⟨a, rfl, ?_⟩
    simpa [Except.map] using h.symm

theorem walk_str_isStr {s : String} {p : String} {j : Json}
    (h : walk (.str s) p = some j) : ∃ c, j = .str c := by
  unfold walk at h
  cases hn : parseIndex p with
  | none => simp [hn] at h
  | some i =>
    rw [hn] at h
    simp only [Option.some_bind] at h
    cases hc : s.data.get? i with
    | none => rw [hc] at h; simp at h
    | some c =>
      rw [hc] at h
      simp only [Option.map_some'] at h
      exact ⟨String.singleton c, (Option.some.inj h).symm⟩

theorem setPtr_str_ne_ok {parts : List String} {s : String} {v d' : Json} :
    setPtr (.str s) parts v ≠ .ok d' := by
  induction parts generalizing s d' with
  | nil => simp [setPtr]
  | cons p rest ih =>
    cases rest with
    | nil =>
      simp only [setPtr]
      cases parseIndex p <;> simp
    | cons q t =>
      simp only [setPtr]
      cases hw : walk (.str s) p with
      | none => simp
      | some sub =>
        obtain ⟨c, rfl⟩ := walk_str_isStr hw
        simp only [ne_eq]
        intro hmap
        obtain ⟨d'', hd'', -⟩ := except_map_ok hmap
        exact ih hd''

theorem walk_replaceChild {d : Json} {p : String} {sub : Json} (sub' : Json)
    (hw : walk d p = some sub) (hns : ∀ s, d ≠ .str s) :
    walk (replaceChild d p sub') p = some sub' := by
  cases d with
  | obj kvs =>
    simp only [replaceChild, walk]
    exact lookup_insertKV kvs p sub'
  | arr xs =>
    simp only [walk] at hw
    cases hn : parseIndex p with
    | none => simp [hn] at hw
    | some i =>
      simp only [hn, Option.bind_some] at hw
      have hi : i < xs.length := by
        by_contra hge
        simp [List.get?_eq_getElem?, List.getElem?_eq_none (Nat.le_of_not_lt hge)] at hw
      simp only [replaceChild, hn, walk, Option.bind_some,
        List.get?_eq_getElem?]
      exact List.getElem?_set_eq_of_lt sub' hi
  | str s => exact absurd rfl (hns s)
  | null => simp [walk] at hw
  | bool b => simp [walk] at hw
  | num n => simp [walk] at hw

theorem resolve_setPtr {parts : List String} {d d' v : Json}
    (h : setPtr d parts v = .ok d') : resolve d' parts = some v := by
  induction parts generalizing d d' with
  | nil => simp [setPtr] at h
  | cons p rest ih =>
    cases rest with
    | nil =>
      cases d with
      | obj kvs =>
        simp only [setPtr, Except.ok.injEq] at h
        subst h
        simp [resolve, walk, lookup_insertKV]
      | arr xs =>
        simp only [setPtr] at h
        cases hn : parseIndex p with
        | none => simp [hn] at h
        | some i =>
          simp only [hn] at h
          by_cases hi : i < xs.length
          · simp only [hi, if_true, Except.ok.injEq] at h
            subst h
            simp only [resolve, walk, hn, Option.some_bind, List.get?_eq_getElem?]
            rw [List.getElem?_set_eq_of_lt v hi]
            rfl
          · simp [hi] at h
      | str s =>
        exact absurd h setPtr_str_ne_ok
      | null => simp [setPtr] at h
      | bool b => simp [setPtr] at h
      | num n => simp [setPtr] at h
    | cons q t =>
      simp only [setPtr] at h
      cases hw : walk d p with
      | none => simp [hw] at h
      | some sub =>
        simp only [hw] at h
        obtain ⟨sub', hsub', rfl⟩ := except_map_ok h
        have hns : ∀ s, d ≠ .str s := by
          intro s hs
          subst hs
          obtain ⟨c, rfl⟩ := walk_str_isStr hw
          exact setPtr_str_ne_ok hsub'
        simp only [resolve, walk_replaceChild sub' hw hns, Option.bind_some]
        exact ih hsub'

theorem setParents_str_ne_ok {parts : List String} {s : String} {v d' : Json} :
    setParents (.str s) parts v ≠ .ok d' := by
  induction parts generalizing s d' with
  | nil => simp [setParents]
  | cons p rest ih =>
    cases rest with
    | nil => simp [setParents]
    | cons q t =>
      simp only [setParents]
      cases hw : walk (.str s) p with
      | none => simp
      | some sub =>
        obtain ⟨c, rfl⟩ := walk_str_isStr hw
        simp only [ne_eq]
        intro hmap
        obtain ⟨d'', hd'', -⟩ := except_map_ok hmap
        exact ih hd''

theorem resolve_setParents {parts : List String} {d d' v : Json}
    (h : setParents d parts v = .ok d') : resolve d' parts = some v := by
  induction parts generalizing d d' with
  | nil => simp [setParents] at h
  | cons p rest ih =>
    cases rest with
    | nil =>
      cases d with
      | obj kvs =>
        simp only [setParents] at h
        obtain rfl := Except.ok.inj h
        simp [resolve, walk, lookup_insertKV]
      | null => simp [setParents] at h
      | bool b => simp [setParents] at h
      | num n => simp [setParents] at h
      | str s => simp [setParents] at h
      | arr xs => simp [setParents] at h
    | cons q t =>
      simp only [setParents] at h
      cases hw : walk d p with
      | some sub =>
        simp only [hw] at h
        obtain ⟨sub', hsub', rfl⟩ := except_map_ok h
        have hns : ∀ s, d ≠ .str s := by
          intro s hs
          subst hs
          obtain ⟨c, rfl⟩ := walk_str_isStr hw
          exact setParents_str_ne_ok hsub'
        simp only [resolve, walk_replaceChild sub' hw hns, Option.bind_some]
        exact ih hsub'
      | none =>
        simp only [hw] at h
        cases d with
        | obj kvs =>
          obtain ⟨sub', hsub', rfl⟩ := except_map_ok h
          simp only [resolve, walk, lookup_insertKV, Option.some_bind]
          exact ih hsub'
        | null => simp at h
        | bool b => simp at h
        | num n => simp at h
        | str s => simp at h
        | arr xs => simp at h


/-! ## Claim C1: the set/get round trip -/

/-- C1: for every non-readonly `DataDelver` view, every path and every
value, if `set(path, value)` (with either `parents` flag) completes
without raising, then an immediately following `get(path)` returns that
value — including the root case `path = ""` (`parts = []`), where `set`
replaces the whole owned tree. -/
theorem C1_set_get_roundtrip (dd : DD) (parts : List String) (v : Json)
    (parents : Bool) (dd' : DD) (default : Json)
    (h : ddset dd parts v parents = .ok dd') :
    ddget dd' parts default = v := by
  unfold ddset at h
  by_cases hro : dd.readonly = true
  · rw [if_pos hro] at h
    exact absurd h (by simp)
  · rw [if_neg hro] at h
    by_cases hp : parts.isEmpty = true
    · rw [if_pos hp] at h
      obtain rfl := Except.ok.inj h
      rw [List.isEmpty_iff] at hp
      subst hp
      simp [ddget, resolve]
    · rw [if_neg hp] at h
      cases hd : dd.data with
      | none =>
        rw [hd] at h
        cases parents <;> simp at h
      | some d =>
        rw [hd] at h
        simp only at h
        cases hs : setPtr d parts v with
        | ok d2 =>
          rw [hs] at h
          simp only at h
          obtain rfl := Except.ok.inj h
          simp [ddget, resolve_setPtr hs]
        | error e =>
          rw [hs] at h
          cases e with
          | jpe =>
            simp only at h
            cases hpar : parents with
            | false => rw [hpar] at h; simp at h
            | true =>
              rw [hpar] at h
              simp only [if_true] at h
              obtain ⟨d2, hd2, rfl⟩ := except_map_ok h
              simp [ddget, resolve_setParents hd2]
          | pathError => simp at h
          | readonly => simp at h
          | typeError => simp at h
          | indexError => simp at h
          | mergeError => simp at h
          | iterationError => simp at h

/-- Witness for C1 at a concrete input: setting key `a` to `1` in the
empty mapping, then getting it back. -/
theorem C1_witness :
    ddget ⟨some (.obj [("a", .num 1)]), false⟩ ["a"] .null = .num 1 :=
  C1_set_get_roundtrip ⟨some (.obj []), false⟩ ["a"] (.num 1) false
    ⟨some (.obj [("a", .num 1)]), false⟩ .null rfl

/-! ## Claim C2: the delete/get invariant fails on sequence indices -/

/-- C2 (evaluation at the failing input): on the tree
`{"list": [1, 2]}`, `get("/list/0")` is the non-absent value `1`, and
`delete("/list/0")` completes without raising — but the following
`get("/list/0", 99)` returns `2`, the element that shifted into
position 0, not the supplied default.  The delete/get invariant stated
in the `Delver.delete` docstring (main.py 53-54) is violated whenever
the deleted position is not past the new end of the sequence. -/
theorem C2_delete_shift_eval :
    ddget ⟨some (.obj [("list", .arr [.num 1, .num 2])]), false⟩
        ["list", "0"] (.num 99) = .num 1 ∧
    dddelete ⟨some (.obj [("list", .arr [.num 1, .num 2])]), false⟩ ["list", "0"]
      = .ok ⟨some (.obj [("list", .arr [.num 2])]), false⟩ ∧
    ddget ⟨some (.obj [("list", .arr [.num 2])]), false⟩
        ["list", "0"] (.num 99) = .num 2 ∧
    Json.num 2 ≠ Json.num 99 :=
  ⟨rfl, rfl, rfl, fun hx => absurd (Json.num.inj hx) (by decide)⟩

/-! ## Claim C7: root deletion is a distinguished sentinel state -/

/-- C7: on every non-readonly `DataDelver`, `delete("")` succeeds and
sets the stored tree to the sentinel (`none`); afterwards `get("")`
returns the supplied default, whatever it is — while a view holding the
empty mapping `{}` returns `{}` and not the default, so the deleted
state is distinguished from an empty mapping. -/
theorem C7_root_delete_sentinel (dd : DD) (h : dd.readonly = false) :
    dddelete dd [] = .ok ⟨none, false⟩ ∧
    (∀ default, ddget ⟨none, false⟩ [] default = default) ∧
    (∀ default, ddget ⟨some (.obj []), false⟩ [] default = .obj []) := by
  refine ⟨?_, fun _ => rfl, fun _ => rfl⟩
  unfold dddelete
  rw [h]
  rfl

/-- Witness for C7 at a concrete input: root-deleting a one-key view. -/
theorem C7_witness :
    dddelete ⟨some (.obj [("a", .num 1)]), false⟩ [] = .ok ⟨none, false⟩ ∧
    ddget ⟨none, false⟩ [] (.num 5) = .num 5 ∧
    ddget ⟨some (.obj []), false⟩ [] (.num 5) = .obj [] := by
  obtain ⟨h1, h2, h3⟩ :=
    C7_root_delete_sentinel ⟨some (.obj [("a", .num 1)]), false⟩ rfl
  exact ⟨h1, h2 (.num 5), h3 (.num 5)⟩

/-! ## Claim C8: the JsonPath text round trip -/

theorem splitSlash_ne_nil (l : List Char) : splitSlash l ≠ [] := by
  cases l with
  | nil => simp [splitSlash]
  | cons c t =>
    simp only [splitSlash]
    by_cases h : c = '/'
    · simp [h]
    · simp only [h, if_false]
      cases hs : splitSlash t with
      | nil => simp
      | cons a b => simp

theorem joinSlash_splitSlash (l : List Char) : joinSlash (splitSlash l) = l := by
  induction l with
  | nil => rfl
  | cons c t ih =>
    simp only [splitSlash]
    by_cases h : c = '/'
    · subst h
      rw [if_pos rfl]
      cases hs : splitSlash t with
      | nil => exact absurd hs (splitSlash_ne_nil t)
      | cons a b =>
        rw [hs] at ih
        simp only [joinSlash, List.nil_append]
        rw [← hs] at ih ⊢
        rw [ih]
    · rw [if_neg h]
      cases hs : splitSlash t with
      | nil => exact absurd hs (splitSlash_ne_nil t)
      | cons a b =>
        rw [hs] at ih
        cases b with
        | nil =>
          simp only [joinSlash] at ih ⊢
          rw [ih]
        | cons a2 b2 =>
          simp only [joinSlash, List.cons_append] at ih ⊢
          rw [ih]

/-- C8 (counterexample): the claim includes the empty text (denoting the
root) among the valid path texts, but `str(JsonPath("")) == "/"`, not
`""`: the parse/stringify round trip fails at `s = ""`. -/
theorem C8_counterexample :
    jsonPathComponents "".data = [] ∧
    jsonPathToString (jsonPathComponents "".data) = "/".data ∧
    jsonPathToString (jsonPathComponents "".data) ≠ "".data :=
  ⟨rfl, rfl, by decide⟩

/-- C8 (amended): for every nonempty path text that begins with the
separator `/` — i.e. every valid JSON-Pointer text other than the empty
root text — parsing into components and stringifying yields the text
back exactly, escapes (`~0`/`~1`) included, since the single-argument
constructor neither unescapes nor re-escapes. -/
theorem C8_roundtrip_amended (s : List Char) (h1 : s ≠ [])
    (h2 : s.head? = some '/') :
    jsonPathToString (jsonPathComponents s) = s := by
  cases s with
  | nil => exact absurd rfl h1
  | cons c t =>
    simp only [List.head?_cons, Option.some.injEq] at h2
    subst h2
    have hsplit : splitSlash ('/' :: t) = [] :: splitSlash t := by
      simp [splitSlash]
    rw [jsonPathComponents, hsplit, List.drop_one, List.tail_cons,
      jsonPathToString, joinSlash_splitSlash]

/-- Witness for C8 at a concrete input, escapes included. -/
theorem C8_witness :
    jsonPathToString (jsonPathComponents "/foo/~0bar".data) = "/foo/~0bar".data :=
  C8_roundtrip_amended "/foo/~0bar".data (by simp) rfl

/-! ## Claim C9: iteration over children -/

/-- `get` against a view is resolution with a default. -/
theorem ddget_eq_resolveDD (dd : DD) (parts : List String) (default : Json) :
    ddget dd parts default = (resolveDD dd parts).getD default := by
  cases dd with
  | mk data ro => cases data <;> rfl

/-- C9 (counterexample): on the tree `{"s": "ab"}`, the value at `/s` is
the scalar string `"ab"`, yet `values("/s")` does not raise
`IterationError`: Python strings satisfy `isinstance(·, Sequence)`, so
the code yields one child view per character (`cd("/s/0")`,
`cd("/s/1")`). -/
theorem C9_counterexample :
    valuesKeys ⟨some (.obj [("s", .str "ab")]), false⟩ ["s"] = .ok ["0", "1"] ∧
    valuesKeys ⟨some (.obj [("s", .str "ab")]), false⟩ ["s"] ≠
      .error .iterationError :=
  ⟨rfl, fun h => Except.noConfusion
    ((show valuesKeys ⟨some (.obj [("s", .str "ab")]), false⟩ ["s"]
        = .ok ["0", "1"] from rfl).symm.trans h)⟩

/-- C9 (amended): iterating the children at a path raises
`IterationError` exactly when the resolved value is a number, boolean,
or null, or is absent; a mapping yields one child per key in insertion
order, and a sequence — a list *or a string*, since Python strings are
sequences — yields one child per element with keys `"0"`, `"1"`, … in
order. -/
theorem C9_values_amended (dd : DD) (parts : List String) :
    (valuesKeys dd parts = .error .iterationError ↔
      (match resolveDD dd parts with
       | none => True
       | some .null => True
       | some (.bool _) => True
       | some (.num _) => True
       | some (.str _) => False
       | some (.arr _) => False
       | some (.obj _) => False)) ∧
    (∀ xs, resolveDD dd parts = some (.arr xs) →
      valuesKeys dd parts = .ok ((List.range xs.length).map toString)) ∧
    (∀ s, resolveDD dd parts = some (.str s) →
      valuesKeys dd parts = .ok ((List.range s.length).map toString)) ∧
    (∀ kvs, resolveDD dd parts = some (.obj kvs) →
      valuesKeys dd parts = .ok (kvs.map (·.1))) := by
  have hv : valuesKeys dd parts =
      match (resolveDD dd parts).getD .null with
      | .arr xs => .ok ((List.range xs.length).map toString)
      | .str s => .ok ((List.range s.length).map toString)
      | .obj kvs => .ok (kvs.map (·.1))
      | _ => .error .iterationError := by
    rw [valuesKeys, ddgetNull, ddget_eq_resolveDD]
  cases hr : resolveDD dd parts with
  | none =>
    rw [hr] at hv
    simp only [Option.getD_none] at hv
    refine ⟨by simp [hv], ?_, ?_, ?_⟩ <;> intro x hx <;> cases hx
  | some j =>
    rw [hr] at hv
    simp only [Option.getD_some] at hv
    cases j <;>
      refine ⟨by simp [hv], ?_, ?_, ?_⟩ <;>
        intro x hx <;>
          simp only [Option.some.injEq] at hx <;> cases hx <;> exact hv

/-- Witness for C9 at a concrete input: iterating a two-key mapping
yields its keys in insertion order. -/
theorem C9_witness :
    valuesKeys ⟨some (.obj [("a", .num 1), ("b", .num 2)]), false⟩ [] =
      .ok ["a", "b"] :=
  (C9_values_amended ⟨some (.obj [("a", .num 1), ("b", .num 2)]), false⟩ []).2.2.2
    [("a", .num 1), ("b", .num 2)] rfl

/-! ## Claim C6: the FIRST strategy -/

/-- C6 (counterexample): a stored JSON null counts as absent, contrary
to the claim.  With a most-specific layer holding `null` at `/a` and a
less-specific layer holding `1`, FIRST skips the null and returns `1`
instead of the most-specific present value; and with a single layer
holding `null`, FIRST returns the default even though a layer has a
value at the path. -/
theorem C6_counterexample :
    chainFirst [⟨some (.obj [("a", .num 1)]), false⟩,
                ⟨some (.obj [("a", .null)]), false⟩] ["a"] (.num 7) = .num 1 ∧
    Json.num 1 ≠ Json.null ∧
    chainFirst [⟨some (.obj [("a", .null)]), false⟩] ["a"] (.num 7) = .num 7 :=
  ⟨rfl, by simp, rfl⟩

theorem firstAux_eq_find (parts : List String) (default : Json)
    (ls : List DD) :
    firstAux parts default ls =
      ((ls.map (fun l => ddgetNull l parts)).find? (fun f => !f.isNull)).getD
        default := by
  induction ls with
  | nil => rfl
  | cons l rest ih =>
    simp only [firstAux, List.map_cons, List.find?]
    cases hn : (ddgetNull l parts).isNull with
    | true => simp only [hn, if_true, Bool.not_true, ih]
    | false =>
      simp only [hn, Bool.not_false, Option.getD_some]
      simp

/-- C6 (amended): `get(path, default, strategy=FIRST)` scans the layers
most- to least-specific and returns the first value that is *not* null —
a stored null is indistinguishable from an absent path because the scan
probes each layer with `get(path)` whose default is `None` — and returns
the default exactly when every layer's value at the path is absent or
null. -/
theorem C6_first_amended (layers : List DD) (parts : List String)
    (default : Json) :
    chainFirst layers parts default =
      ((layers.reverse.map (fun l => ddgetNull l parts)).find?
        (fun f => !f.isNull)).getD default :=
  firstAux_eq_find parts default layers.reverse

/-! ## Claims C3 and C10: the MERGE strategy and its in-place mutation -/

theorem foundList_nil (parts : List String) : foundList [] parts = [] := rfl

theorem foundList_cons (l : DD) (ls : List DD) (parts : List String) :
    foundList (l :: ls) parts =
      if (ddgetNull l parts).isNull then foundList ls parts
      else ddgetNull l parts :: foundList ls parts := by
  simp only [foundList, List.filterMap_cons]
  cases h : (ddgetNull l parts).isNull <;> simp [h]

theorem mergeLoop_cons_null (parts : List String) (l : DD) (t : List DD)
    (idx : Nat) (acc : Option MergeAcc)
    (hn : (ddgetNull l parts).isNull = true) :
    mergeLoop parts (l :: t) idx acc = mergeLoop parts t (idx + 1) acc := by
  simp [mergeLoop, hn]

theorem mergeLoop_skip (parts : List String) (pre ls : List DD)
    (idx : Nat) (acc : Option MergeAcc)
    (h : ∀ l ∈ pre, (ddgetNull l parts).isNull = true) :
    mergeLoop parts (pre ++ ls) idx acc =
      mergeLoop parts ls (idx + pre.length) acc := by
  induction pre generalizing idx with
  | nil => simp
  | cons l t ih =>
    rw [List.cons_append,
      mergeLoop_cons_null parts l (t ++ ls) idx acc (h l (by simp)),
      ih (idx + 1) (fun x hx => h x (List.mem_cons_of_mem l hx))]
    have harith : idx + 1 + t.length = idx + (l :: t).length := by
      simp only [List.length_cons]
      omega
    rw [harith]

theorem mergeLoop_noacc_none (parts : List String) (ls : List DD) (idx : Nat)
    (h : foundList ls parts = []) :
    mergeLoop parts ls idx none = (none, none) := by
  induction ls generalizing idx with
  | nil => rfl
  | cons l t ih =>
    rw [foundList_cons] at h
    cases hn : (ddgetNull l parts).isNull with
    | true =>
      rw [hn, if_pos rfl] at h
      rw [mergeLoop_cons_null parts l t idx none hn]
      exact ih (idx + 1) h
    | false =>
      rw [hn] at h
      simp at h

theorem mergeLoop_dict_acc (parts : List String) (ls : List DD)
    (idx i : Nat) (a : List (String × Json)) (bs : List (List (String × Json)))
    (h : foundList ls parts = bs.map Json.obj) :
    mergeLoop parts ls idx (some ⟨i, .obj a, .dict⟩) =
      (some ⟨i, .obj (bs.foldl Json.updateKVs a), .dict⟩, none) := by
  induction ls generalizing idx a bs with
  | nil =>
    rw [foundList_nil] at h
    obtain rfl : bs = [] := by
      cases bs with
      | nil => rfl
      | cons b t => simp at h
    simp [mergeLoop]
  | cons l t ih =>
    rw [foundList_cons] at h
    cases hn : (ddgetNull l parts).isNull with
    | true =>
      rw [hn, if_pos rfl] at h
      rw [mergeLoop_cons_null parts l t idx _ hn]
      exact ih (idx + 1) a bs h
    | false =>
      rw [hn, if_neg (by simp)] at h
      cases bs with
      | nil => simp at h
      | cons b bs' =>
        simp only [List.map_cons, List.cons.injEq] at h
        obtain ⟨hf, ht⟩ := h
        have hstep : mergeLoop parts (l :: t) idx (some ⟨i, .obj a, .dict⟩) =
            mergeLoop parts t (idx + 1)
              (some ⟨i, .obj (Json.updateKVs a b), .dict⟩) := by
          simp [mergeLoop, hf, Json.isNull, combine]
        rw [hstep, ih (idx + 1) (Json.updateKVs a b) bs' ht]
        simp [List.foldl_cons]

theorem mergeLoop_dict_start (parts : List String) (ls : List DD) (idx : Nat)
    (a : List (String × Json)) (bs : List (List (String × Json)))
    (h : foundList ls parts = Json.obj a :: bs.map Json.obj) :
    ∃ i, mergeLoop parts ls idx none =
      (some ⟨i, .obj (bs.foldl Json.updateKVs a), .dict⟩, none) := by
  induction ls generalizing idx with
  | nil => rw [foundList_nil] at h; cases h
  | cons l t ih =>
    rw [foundList_cons] at h
    cases hn : (ddgetNull l parts).isNull with
    | true =>
      rw [hn, if_pos rfl] at h
      obtain ⟨i, hi⟩ := ih (idx + 1) h
      refine ⟨i, ?_⟩
      rw [mergeLoop_cons_null parts l t idx none hn]
      exact hi
    | false =>
      rw [hn, if_neg (by simp)] at h
      simp only [List.cons.injEq] at h
      obtain ⟨hf, ht⟩ := h
      refine ⟨idx, ?_⟩
      have hstep : mergeLoop parts (l :: t) idx none =
          mergeLoop parts t (idx + 1) (some ⟨idx, .obj a, .dict⟩) := by
        simp [mergeLoop, hf, Json.isNull]
      rw [hstep]
      exact mergeLoop_dict_acc parts t (idx + 1) idx a bs ht

theorem mergeLoop_list_acc (parts : List String) (ls : List DD)
    (idx i : Nat) (x : List Json) (ys : List (List Json))
    (h : foundList ls parts = ys.map Json.arr) :
    mergeLoop parts ls idx (some ⟨i, .arr x, .list⟩) =
      (some ⟨i, .arr (x ++ ys.flatten), .list⟩, none) := by
  induction ls generalizing idx x ys with
  | nil =>
    rw [foundList_nil] at h
    obtain rfl : ys = [] := by
      cases ys with
      | nil => rfl
      | cons y t => simp at h
    simp [mergeLoop]
  | cons l t ih =>
    rw [foundList_cons] at h
    cases hn : (ddgetNull l parts).isNull with
    | true =>
      rw [hn, if_pos rfl] at h
      rw [mergeLoop_cons_null parts l t idx _ hn]
      exact ih (idx + 1) x ys h
    | false =>
      rw [hn, if_neg (by simp)] at h
      cases ys with
      | nil => simp at h
      | cons y ys' =>
        simp only [List.map_cons, List.cons.injEq] at h
        obtain ⟨hf, ht⟩ := h
        have hstep : mergeLoop parts (l :: t) idx (some ⟨i, .arr x, .list⟩) =
            mergeLoop parts t (idx + 1) (some ⟨i, .arr (x ++ y), .list⟩) := by
          simp [mergeLoop, hf, Json.isNull, combine]
        rw [hstep, ih (idx + 1) (x ++ y) ys' ht]
        simp [List.append_assoc]

theorem mergeLoop_list_start (parts : List String) (ls : List DD) (idx : Nat)
    (x : List Json) (ys : List (List Json))
    (h : foundList ls parts = Json.arr x :: ys.map Json.arr) :
    ∃ i, mergeLoop parts ls idx none =
      (some ⟨i, .arr (x ++ ys.flatten), .list⟩, none) := by
  induction ls generalizing idx with
  | nil => rw [foundList_nil] at h; cases h
  | cons l t ih =>
    rw [foundList_cons] at h
    cases hn : (ddgetNull l parts).isNull with
    | true =>
      rw [hn, if_pos rfl] at h
      obtain ⟨i, hi⟩ := ih (idx + 1) h
      refine ⟨i, ?_⟩
      rw [mergeLoop_cons_null parts l t idx none hn]
      exact hi
    | false =>
      rw [hn, if_neg (by simp)] at h
      simp only [List.cons.injEq] at h
      obtain ⟨hf, ht⟩ := h
      refine ⟨idx, ?_⟩
      have hstep : mergeLoop parts (l :: t) idx none =
          mergeLoop parts t (idx + 1) (some ⟨idx, .arr x, .list⟩) := by
        simp [mergeLoop, hf, Json.isNull]
      rw [hstep]
      exact mergeLoop_list_acc parts t (idx + 1) idx x ys ht

theorem modifyIdx_append {α : Type} (f : α → α) (pre : List α) (x : α)
    (post : List α) :
    modifyIdx f pre.length (pre ++ x :: post) = pre ++ f x :: post := by
  induction pre with
  | nil => rfl
  | cons h t ih => simp [modifyIdx, ih]

/-- C3: `get(P, default, strategy=MERGE)` seeds an accumulator with the
first non-absent value in least- to most-specific order and then
combines each further non-absent value into it — mappings shallow-merged
key by key with later (more specific) keys overriding, sequences
concatenated in resolution order — and returns the default when no layer
has a value.  Conjuncts: the two concrete examples from the spec
(`/dict` and `/list` over the two given layers), the no-value default
case, and the general homogeneous mapping and sequence cases. -/
theorem C3_merge_strategy :
    (∀ default, chainMergeGet
      [⟨some (.obj [("dict", .obj [("a", .str "A")]),
                    ("list", .arr [.num 1, .num 2])]), false⟩,
       ⟨some (.obj [("dict", .obj [("b", .str "B")]),
                    ("list", .arr [.num 3, .num 4])]), false⟩]
      ["dict"] default = .ok (.obj [("a", .str "A"), ("b", .str "B")])) ∧
    (∀ default, chainMergeGet
      [⟨some (.obj [("dict", .obj [("a", .str "A")]),
                    ("list", .arr [.num 1, .num 2])]), false⟩,
       ⟨some (.obj [("dict", .obj [("b", .str "B")]),
                    ("list", .arr [.num 3, .num 4])]), false⟩]
      ["list"] default = .ok (.arr [.num 1, .num 2, .num 3, .num 4])) ∧
    (∀ (layers : List DD) (parts : List String) (default : Json),
      foundList layers parts = [] →
      chainMergeGet layers parts default = .ok default) ∧
    (∀ (layers : List DD) (parts : List String) (default : Json)
      (a : List (String × Json)) (bs : List (List (String × Json))),
      foundList layers parts = Json.obj a :: bs.map Json.obj →
      chainMergeGet layers parts default =
        .ok (.obj (bs.foldl Json.updateKVs a))) ∧
    (∀ (layers : List DD) (parts : List String) (default : Json)
      (x : List Json) (ys : List (List Json)),
      foundList layers parts = Json.arr x :: ys.map Json.arr →
      chainMergeGet layers parts default = .ok (.arr (x ++ ys.flatten))) := by
  refine ⟨fun _ => rfl, fun _ => rfl, ?_, ?_, ?_⟩
  · intro layers parts default h
    rw [chainMergeGet, mergeLoop_noacc_none parts layers 0 h]
  · intro layers parts default a bs h
    obtain ⟨i, hi⟩ := mergeLoop_dict_start parts layers 0 a bs h
    rw [chainMergeGet, hi]
  · intro layers parts default x ys h
    obtain ⟨i, hi⟩ := mergeLoop_list_start parts layers 0 x ys h
    rw [chainMergeGet, hi]

/-- Witness for C3 at a concrete two-layer input with mapping values. -/
theorem C3_witness :
    chainMergeGet [⟨some (.obj [("k", .obj [("x", .num 1)])]), false⟩,
                   ⟨some (.obj [("k", .obj [("y", .num 2)])]), false⟩]
      ["k"] .null = .ok (.obj [("x", .num 1), ("y", .num 2)]) :=
  C3_merge_strategy.2.2.2.1
    [⟨some (.obj [("k", .obj [("x", .num 1)])]), false⟩,
     ⟨some (.obj [("k", .obj [("y", .num 2)])]), false⟩]
    ["k"] .null [("x", .num 1)] [[("y", .num 2)]] rfl

/-- C10: the merge-strategy get is not a pure read.  The accumulator
`collected` is the very object stored in the least-specific layer that
holds a value at the path (object identity itself is outside a
functional embedding; its observable content is proved): after the call,
that owner layer's tree has the merged result at the path
(`dict.update` / `list.extend` mutate it in place), every other layer —
and every other part of the owner's tree — is unchanged, and the value
returned is exactly what the owner layer now stores.  Stated for the
homogeneous mapping and sequence cases quantified over arbitrary chains
with at least two contributing layers, plus the concrete spec example
evaluated. -/
theorem C10_merge_mutates_owner :
    (∀ (parts : List String) (default : Json) (pre : List DD) (owner : DD)
      (post : List DD) (a : List (String × Json))
      (bs : List (List (String × Json))),
      (∀ l ∈ pre, (ddgetNull l parts).isNull = true) →
      ddgetNull owner parts = Json.obj a →
      foundList post parts = bs.map Json.obj →
      bs ≠ [] →
      chainMergeGet (pre ++ owner :: post) parts default
          = .ok (.obj (bs.foldl Json.updateKVs a)) ∧
      chainMergeLayers (pre ++ owner :: post) parts =
        pre ++ (⟨owner.data.map
          (replaceAt · parts (.obj (bs.foldl Json.updateKVs a))),
          owner.readonly⟩ : DD) :: post) ∧
    (∀ (parts : List String) (default : Json) (pre : List DD) (owner : DD)
      (post : List DD) (x : List Json) (ys : List (List Json)),
      (∀ l ∈ pre, (ddgetNull l parts).isNull = true) →
      ddgetNull owner parts = Json.arr x →
      foundList post parts = ys.map Json.arr →
      ys ≠ [] →
      chainMergeGet (pre ++ owner :: post) parts default
          = .ok (.arr (x ++ ys.flatten)) ∧
      chainMergeLayers (pre ++ owner :: post) parts =
        pre ++ (⟨owner.data.map
          (replaceAt · parts (.arr (x ++ ys.flatten))),
          owner.readonly⟩ : DD) :: post) ∧
    chainMergeLayers
      [⟨some (.obj [("dict", .obj [("a", .str "A")]),
                    ("list", .arr [.num 1, .num 2])]), false⟩,
       ⟨some (.obj [("dict", .obj [("b", .str "B")]),
                    ("list", .arr [.num 3, .num 4])]), false⟩] ["dict"] =
      [⟨some (.obj [("dict", .obj [("a", .str "A"), ("b", .str "B")]),
                    ("list", .arr [.num 1, .num 2])]), false⟩,
       ⟨some (.obj [("dict", .obj [("b", .str "B")]),
                    ("list", .arr [.num 3, .num 4])]), false⟩] := by
  refine ⟨?_, ?_, rfl⟩
  · intro parts default pre owner post a bs hpre howner hpost hbs
    have hloop : mergeLoop parts (pre ++ owner :: post) 0 none =
        (some ⟨pre.length, .obj (bs.foldl Json.updateKVs a), .dict⟩, none) := by
      rw [mergeLoop_skip parts pre (owner :: post) 0 none hpre]
      have hstep : mergeLoop parts (owner :: post) (0 + pre.length) none =
          mergeLoop parts post (0 + pre.length + 1)
            (some ⟨0 + pre.length, .obj a, .dict⟩) := by
        simp [mergeLoop, howner, Json.isNull]
      rw [hstep, mergeLoop_dict_acc parts post (0 + pre.length + 1)
        (0 + pre.length) a bs hpost]
      simp
    constructor
    · rw [chainMergeGet, hloop]
    · rw [chainMergeLayers, hloop]
      exact modifyIdx_append _ pre owner post
  · intro parts default pre owner post x ys hpre howner hpost hys
    have hloop : mergeLoop parts (pre ++ owner :: post) 0 none =
        (some ⟨pre.length, .arr (x ++ ys.flatten), .list⟩, none) := by
      rw [mergeLoop_skip parts pre (owner :: post) 0 none hpre]
      have hstep : mergeLoop parts (owner :: post) (0 + pre.length) none =
          mergeLoop parts post (0 + pre.length + 1)
            (some ⟨0 + pre.length, .arr x, .list⟩) := by
        simp [mergeLoop, howner, Json.isNull]
      rw [hstep, mergeLoop_list_acc parts post (0 + pre.length + 1)
        (0 + pre.length) x ys hpost]
      simp
    constructor
    · rw [chainMergeGet, hloop]
    · rw [chainMergeLayers, hloop]
      exact modifyIdx_append _ pre owner post

/-- Witness for C10 at a concrete input: two layers with mapping values
at `/k`; the first (least-specific) layer's tree afterwards holds the
merged mapping, the second is untouched. -/
theorem C10_witness :
    chainMergeGet [⟨some (.obj [("k", .obj [("x", .num 1)])]), false⟩,
                   ⟨some (.obj [("k", .obj [("y", .num 2)])]), false⟩]
      ["k"] .null = .ok (.obj [("x", .num 1), ("y", .num 2)]) ∧
    chainMergeLayers [⟨some (.obj [("k", .obj [("x", .num 1)])]), false⟩,
                      ⟨some (.obj [("k", .obj [("y", .num 2)])]), false⟩]
      ["k"] =
      [⟨some (.obj [("k", .obj [("x", .num 1), ("y", .num 2)])]), false⟩,
       ⟨some (.obj [("k", .obj [("y", .num 2)])]), false⟩] := by
  have h := C10_merge_mutates_owner.1 ["k"] .null []
    ⟨some (.obj [("k", .obj [("x", .num 1)])]), false⟩
    [⟨some (.obj [("k", .obj [("y", .num 2)])]), false⟩]
    [("x", .num 1)] [[("y", .num 2)]]
    (fun l hl => absurd hl (List.not_mem_nil l)) rfl rfl (by simp)
  exact ⟨h.1, h.2⟩

/-! ## Claim C5: chained delete -/

/-- C5 (counterexample): with no layer readonly, a layer that lacks the
path because its sequence is too short does not produce a swallowed
`PathError`: `del subdoc[key]` raises `IndexError`, which neither the
`except (JsonPointerException, KeyError)` in `DataDelver.delete` nor the
`except PathError` in `ChainedDelver.delete` catches.  Concretely, with
layers `[1]` and `[1, 2, 3]` and path `/1`, the chained delete raises
out of the first layer and never attempts the second — even though the
second layer has the path and deleting from it alone would succeed. -/
theorem C5_counterexample :
    chainDelete [⟨some (.arr [.num 1]), false⟩,
                 ⟨some (.arr [.num 1, .num 2, .num 3]), false⟩] ["1"] =
      ([⟨some (.arr [.num 1]), false⟩,
        ⟨some (.arr [.num 1, .num 2, .num 3]), false⟩], some .indexError) ∧
    resolveDD ⟨some (.arr [.num 1, .num 2, .num 3]), false⟩ ["1"]
      = some (.num 2) ∧
    dddelete ⟨some (.arr [.num 1, .num 2, .num 3]), false⟩ ["1"]
      = .ok ⟨some (.arr [.num 1, .num 3]), false⟩ :=
  ⟨rfl, rfl, rfl⟩

/-- C5 (amended): if any layer in the chain is readonly, `delete`
raises `ReadonlyError` before attempting any mutation and every layer is
left unchanged (atomic refusal).  When no layer is readonly and every
layer's own deletion either succeeds or fails with a `PathError`,
deletion is attempted on every layer least- to most-specific with the
`PathError`s silently swallowed; a per-layer failure of any other kind
(such as `IndexError` for an out-of-range sequence index) propagates
instead, leaving that layer and the more-specific ones untouched. -/
theorem C5_delete_amended :
    (∀ (layers : List DD) (parts : List String),
      (∃ l ∈ layers, l.readonly = true) →
      chainDelete layers parts = (layers, some .readonly)) ∧
    (∀ (layers : List DD) (parts : List String),
      (∀ l ∈ layers, l.readonly = false) →
      (∀ l ∈ layers, dddelete l parts = .error .pathError ∨
        ∃ l', dddelete l parts = .ok l') →
      chainDelete layers parts =
        (layers.map fun l =>
          match dddelete l parts with
          | .ok l' => l'
          | _ => l, none)) := by
  constructor
  · intro layers parts h
    rw [chainDelete, if_pos]
    rw [List.any_eq_true]
    obtain ⟨l, hl, hro⟩ := h
    exact ⟨l, hl, by simp [hro]⟩
  · intro layers parts hro hdel
    rw [chainDelete, if_neg]
    · clear hro
      induction layers with
      | nil => rfl
      | cons l t ih =>
        have hl := hdel l (by simp)
        have ht : ∀ x ∈ t, dddelete x parts = .error .pathError ∨
            ∃ l', dddelete x parts = .ok l' :=
          fun x hx => hdel x (List.mem_cons_of_mem l hx)
        rcases hl with hl | ⟨l', hl⟩
        · rw [List.map_cons, chainDeleteGo, hl, ih ht]
        · rw [List.map_cons, chainDeleteGo, hl, ih ht]
    · rw [List.any_eq_true]
      rintro ⟨l, hl, hx⟩
      rw [hro l hl] at hx
      cases hx

/-- Witness for C5 at concrete inputs: a chain with one readonly layer
refuses atomically; a chain of two writable mapping layers deletes from
the layer that has the key and swallows the other's `PathError`. -/
theorem C5_witness :
    chainDelete [⟨some (.obj [("x", .num 1)]), false⟩,
                 ⟨some (.obj [("y", .num 2)]), true⟩] ["x"] =
      ([⟨some (.obj [("x", .num 1)]), false⟩,
        ⟨some (.obj [("y", .num 2)]), true⟩], some .readonly) ∧
    chainDelete [⟨some (.obj [("x", .num 1)]), false⟩,
                 ⟨some (.obj [("y", .num 2)]), false⟩] ["x"] =
      ([⟨some (.obj []), false⟩,
        ⟨some (.obj [("y", .num 2)]), false⟩], none) := by
  constructor
  · exact C5_delete_amended.1
      [⟨some (.obj [("x", .num 1)]), false⟩, ⟨some (.obj [("y", .num 2)]), true⟩]
      ["x"] ⟨⟨some (.obj [("y", .num 2)]), true⟩, by simp, rfl⟩
  · have h := C5_delete_amended.2
      [⟨some (.obj [("x", .num 1)]), false⟩, ⟨some (.obj [("y", .num 2)]), false⟩]
      ["x"]
      (by
        intro l hl
        simp only [List.mem_cons, List.not_mem_nil, or_false] at hl
        rcases hl with rfl | rfl <;> rfl)
      (by
        intro l hl
        simp only [List.mem_cons, List.not_mem_nil, or_false] at hl
        rcases hl with rfl | rfl
        · exact Or.inr ⟨⟨some (.obj []), false⟩, rfl⟩
        · exact Or.inl rfl)
    exact h

/-! ## Claim C4: the flyweight registry -/

theorem findInst_append (key : String) (store : List JD) (j : JD)
    (h : findInst key store = none) (hk : j.key = key) :
    findInst key (store ++ [j]) = some (store.length, j) := by
  induction store with
  | nil => simp [findInst, hk]
  | cons x t ih =>
    simp only [findInst] at h ⊢
    by_cases hx : x.key = key
    · rw [if_pos hx] at h
      cases h
    · rw [if_neg hx] at h ⊢
      rw [List.append_eq, ih (Option.map_eq_none'.mp h)]
      simp

/-- C4: constructions whose resource references canonicalize to the same
key, with agreeing readonly flags, yield the identical live instance.
If the first construction succeeds yielding instance `i` and registry
`store'`, a second construction through any path with the same canonical
key returns the same index `i` with the registry unchanged — and the
conclusion holds for an arbitrary `content'` load service, so the file
is not re-read (its current contents are irrelevant).  Because both
handles are the same registry entry, in-memory mutations through one are
visible through the other. -/
theorem C4_flyweight (canon : String → Option String)
    (content content' : String → Option Json)
    (store : List JD) (p1 p2 : String) (ro : Bool) (k : String)
    (i : Nat) (store' : List JD)
    (h1 : canon p1 = some k) (h2 : canon p2 = some k)
    (hc : jdConstruct canon content store p1 ro = .ok (i, store')) :
    jdConstruct canon content' store' p2 ro = .ok (i, store') := by
  rw [jdConstruct, h1] at hc
  simp only at hc
  rw [jdConstruct, h2]
  simp only
  cases hfind : findInst k store with
  | some pair =>
    obtain ⟨j, inst⟩ := pair
    rw [hfind] at hc
    simp only at hc
    by_cases hne : ro != inst.readonly
    · rw [if_pos hne] at hc
      cases hc
    · rw [if_neg hne] at hc
      obtain ⟨rfl, rfl⟩ : j = i ∧ store = store' := by
        obtain h' := Except.ok.inj hc
        exact ⟨congrArg Prod.fst h', congrArg Prod.snd h'⟩
      rw [hfind]
      simp only
      rw [if_neg hne]
  | none =>
    rw [hfind] at hc
    simp only at hc
    cases hcont : content k with
    | none => rw [hcont] at hc; cases hc
    | some data =>
      rw [hcont] at hc
      obtain ⟨rfl, rfl⟩ : store.length = i ∧ store ++ [⟨k, some data, ro⟩] = store' := by
        obtain h' := Except.ok.inj hc
        exact ⟨congrArg Prod.fst h', congrArg Prod.snd h'⟩
      rw [findInst_append k store ⟨k, some data, ro⟩ hfind rfl]
      simp

/-- Witness for C4 at a concrete input: `"a"` and `"b"` both
canonicalize to key `"K"`; after loading through `"a"`, loading through
`"b"` returns the same instance and registry even though the load
service now reports different file contents (it is never consulted). -/
theorem C4_witness :
    jdConstruct (fun p => if p = "a" ∨ p = "b" then some "K" else none)
      (fun _ => some (.num 2))
      [⟨"K", some (.num 1), false⟩] "b" false
      = .ok (0, [⟨"K", some (.num 1), false⟩]) :=
  C4_flyweight (fun p => if p = "a" ∨ p = "b" then some "K" else none)
    (fun _ => some (.num 1)) (fun _ => some (.num 2))
    [] "a" "b" false "K" 0 [⟨"K", some (.num 1), false⟩] rfl rfl rfl

end Datadelve
